import Mathlib

/-!
Verification of the Cloud SDK markdown document renderer core
(`googlecloudsdk/core/document_renderers/render_document.py`).

The `_MarkdownConverter` class is embedded shallowly: Python strings become
`List Char`, the input stream becomes a `List Line` (one element per input
line, the trailing newline of each physical line is implicit; end of stream
is the empty list, matching `readline()` returning the falsy `''`), renderer
calls become an explicit event trace, and every Python string/list indexing
operation that can raise `IndexError` is modelled in an `Except Unit` monad
(`.error ()` models the raised exception).  Each event in the trace also
records the value of the pending-text buffer `self._buf` at the moment the
renderer primitive was invoked, so that flushing discipline is observable.
-/

namespace RenderDoc

/-- One input line, without its trailing newline. -/
abbrev Line := List Char

/-- The whitespace characters stripped by Python's `str.rstrip()`. -/
def pyIsSpace (c : Char) : Bool :=
  c = ' ' ∨ c = '\t' ∨ c = '\n' ∨ c = '\r' ∨ c = '\x0b' ∨ c = '\x0c'

/-- Python `s.rstrip()`: drop trailing whitespace. -/
def pyRstrip (l : List Char) : List Char :=
  (l.reverse.dropWhile pyIsSpace).reverse

/-- Resolve a Python sequence index (negative indices count from the end);
`none` models an `IndexError`. -/
def pyResolve (n : Nat) (i : Int) : Option Nat :=
  if 0 ≤ i then (if i < (n : Int) then some i.toNat else none)
  else (if -i ≤ (n : Int) then some (n - (-i).toNat) else none)

/-- Python `l[i]` (an out-of-range index raises, modelled by `.error ()`). -/
def pyGetL [Inhabited α] (l : List α) (i : Int) : Except Unit α :=
  match pyResolve l.length i with
  | some k => .ok (l.getD k default)
  | none => .error ()

/-- Python `l[i] = a` on a list (used for mutating a list element in place). -/
def pySetL (l : List α) (i : Int) (a : α) : Except Unit (List α) :=
  match pyResolve l.length i with
  | some k => .ok (l.set k a)
  | none => .error ()

/-- Clamp one endpoint of a Python slice to `[0, n]`. -/
def pySliceIdx (n : Nat) (i : Int) : Nat :=
  if i < 0 then (if n ≤ (-i).toNat then 0 else n - (-i).toNat)
  else min i.toNat n

/-- Python `s[a:b]` (slices never raise; negative endpoints count from the
end and are clamped). -/
def pySlice (s : List Char) (a b : Int) : List Char :=
  (s.take (pySliceIdx s.length b)).drop (pySliceIdx s.length a)

/-- Python `s.find(pat)` as an option (`none` for Python's `-1`). -/
def findSub (s pat : List Char) : Option Nat :=
  match s with
  | [] => if pat.isEmpty then some 0 else none
  | _ :: t => if pat.isPrefixOf s then some 0 else (findSub t pat).map (· + 1)

/-- Python substring containment `pat in s`. -/
def pyContains (s pat : List Char) : Bool := (findSub s pat).isSome

/-- Index reached by a Python loop `while i < len(l) and p(l[i]): i += 1`. -/
def advanceWhile (p : Char → Bool) (l : List Char) (i : Nat) : Nat :=
  i + ((l.drop i).takeWhile p).length

/-- Truthiness of the optional `notes` string (`None` and `''` are falsy). -/
def truthy : Option (List Char) → Bool
  | none => false
  | some s => ¬s.isEmpty

/-- The backquote character (code 96). -/
def bq : Char := Char.ofNat 96

/-! ## Data model -/

/-- `_ListElementState`: per-depth list element state. -/
structure ListElementState where
  bullet : Bool := false
  ignoreLine : Nat := 0
  level : Nat := 0
deriving Repr, DecidableEq, Inhabited

/-- Modelled from the spec: the renderer font-emphasis kinds (`renderer.BOLD`,
`renderer.ITALIC`, `renderer.CODE`); `renderer.py` itself is not part of the
sources, only its constants are referenced, so the three kinds are modelled
as an enumeration. -/
inductive EmphasisKind where
  | bold
  | italic
  | code
deriving Repr, DecidableEq

/-- `_EMPHASIS`: font emphasis kind indexed by markdown character
(`'*'`, `'_'`, backquote); any other character is never looked up. -/
def EMPHASIS (c : Char) : EmphasisKind :=
  if c = '*' then .bold else if c = '_' then .italic else .code

/-- The inline primitives of the renderer contract that return a string
spliced into the processed text (`Escape`, `Font`, `Link`). -/
structure Renderer where
  escape : List Char → List Char
  font : EmphasisKind → List Char
  link : List Char → List Char → List Char

/-- A record of one inline `Font`/`Link` renderer call made by
`_Attributes`. -/
inductive InlineCall where
  | font (k : EmphasisKind)
  | link (target text : List Char)
deriving Repr, DecidableEq

/-- The block-level renderer primitives emitted by the converter. -/
inductive Event where
  | fill (s : List Char)
  | heading (level : Nat) (text : List Char)
  | synopsis (s : List Char)
  | list (depth : Int) (label : Option (List Char))
  | table (s : Option (List Char))
  | exampleLine (s : List Char)
  | line
  | finish
  | write (s : List Char)
deriving Repr, DecidableEq

/-- One emitted renderer call together with the value of the pending-text
buffer `self._buf` at the moment of the call. -/
structure Emit where
  ev : Event
  bufAt : List Char
deriving Repr, DecidableEq

/-- The mutable state of one `_MarkdownConverter` instance (the fields of
`__init__` that the classifier chain reads and writes). -/
structure ConvState where
  buf : List Char
  notes : Option (List Char)
  lists : List ListElementState
  depth : Int
  exampleIndent : Nat
  nextExampleIndent : Nat
  paragraph : Bool
  nextParagraph : Bool
deriving Repr, DecidableEq

/-- The state after `__init__(style_renderer, fin, notes)`. -/
def initState (notes : Option (List Char)) : ConvState :=
  { buf := []
    notes := notes
    lists := [{}]
    depth := 0
    exampleIndent := 0
    nextExampleIndent := 0
    paragraph := false
    nextParagraph := false }

/-! ## Inline attribute engine (`_Anchor`, `_Attributes`) -/

/-- The bracket scan of `_Anchor`: starting at `j` (the index of `':'`),
walk forward tracking nested `[`/`]`; returns `(text_beg, text_end)` when
the bracket nesting returns to zero at a `]`.  Structural recursion on
`fuel`; the scan advances one index per step, so `fuel = buf.length` is
never exhausted before the Python loop's own `j < len(buf)` exit. -/
def anchorScan (buf : List Char) : Nat → Nat → Nat → Int → Option (Nat × Nat)
  | 0, _, _, _ => none
  | fuel + 1, j, textBeg, nesting =>
    if j < buf.length then
      let c := buf.getD j ' '
      let textBeg' := if c = '[' ∧ textBeg = 0 then j + 1 else textBeg
      let nesting' := if c = '[' then nesting + 1 else nesting
      if c = ']' then
        if nesting' - 1 = 0 then some (textBeg', j)
        else if nesting' - 1 < 0 then none
        else anchorScan buf fuel (j + 1) textBeg' (nesting' - 1)
      else anchorScan buf fuel (j + 1) textBeg' nesting'
    else none

/-- `_Anchor(buf, i)`: checks for `link:target[text]` hyperlink anchor
markdown at `buf[i] = ':'`.  Returns `some (i', back, target, text)` with
`i'` the index just past the link, mirroring the Python tuple with `i' = 0`
falsy meaning "no link" mapped to `none`. -/
def anchor (buf : List Char) (i : Nat) : Option (Nat × Nat × List Char × List Char) :=
  let prefixInfo : Option (Nat × Nat) :=
    if 3 ≤ i ∧ pySlice buf ((i : Int) - 3) i = "ftp".toList then some (3, i - 3)
    else if 4 ≤ i ∧ pySlice buf ((i : Int) - 4) i = "http".toList then some (4, i - 4)
    else if 4 ≤ i ∧ pySlice buf ((i : Int) - 4) i = "link".toList then some (4, i + 1)
    else if 5 ≤ i ∧ pySlice buf ((i : Int) - 5) i = "https".toList then some (5, i - 5)
    else if 6 ≤ i ∧ pySlice buf ((i : Int) - 6) i = "mailto".toList then some (6, i - 6)
    else none
  match prefixInfo with
  | none => none
  | some (back, targetBeg) =>
    match anchorScan buf buf.length i 0 0 with
    | none => none
    | some (textBeg, textEnd) =>
      if textEnd = 0 then none
      else
        some (textEnd + 1, back,
              pySlice buf (targetBeg : Int) ((textBeg : Int) - 1),
              pySlice buf (textBeg : Int) (textEnd : Int))

/-- The scanning loop of `_Attributes` over the escaped buffer `buf`,
accumulating the output string `ret` and the inline `Font`/`Link` calls
made.  The cursor `i` strictly increases each step, so `fuel = buf.length`
is never exhausted before the loop's own `i < len(buf)` exit. -/
def attrLoop (R : Renderer) (buf : List Char) :
    Nat → Nat → List Char → List InlineCall → List Char × List InlineCall
  | 0, _, ret, calls => (ret, calls)
  | fuel + 1, i, ret, calls =>
    if i < buf.length then
      let c := buf.getD i ' '
      if c = ':' then
        match anchor buf i with
        | some (j, back, target, text) =>
          attrLoop R buf fuel j
            (pySlice ret 0 (-(back : Int)) ++ R.link target text)
            (calls ++ [.link target text])
        | none => attrLoop R buf fuel (i + 1) (ret ++ [c]) calls
      else if c = '*' ∨ c = '_' ∨ c = bq then
        let l := if i = 0 then ' ' else buf.getD (i - 1) ' '
        let r := if i < buf.length - 1 then buf.getD (i + 1) ' ' else ' '
        if r = c then
          attrLoop R buf fuel (i + 2) (ret ++ [c, c]) calls
        else if (c = '*' ∧ (l = ' ' ∨ l = '/') ∧ (r = ' ' ∨ r = '.' ∨ r = '/')) ∨
                ((l = ' ' ∨ l = '/') ∧ (r = ' ' ∨ r = '.')) then
          attrLoop R buf fuel (i + 1) (ret ++ [c]) calls
        else if l.isAlphanum ∧ r.isAlphanum then
          attrLoop R buf fuel (i + 1) (ret ++ [c]) calls
        else
          attrLoop R buf fuel (i + 1) (ret ++ R.font (EMPHASIS c))
            (calls ++ [.font (EMPHASIS c)])
      else attrLoop R buf fuel (i + 1) (ret ++ [c]) calls
    else (ret, calls)

/-- `_Attributes()`: converts inline markdown attributes in `self._buf`
(after the renderer's `Escape`), draining the buffer.  Returns the
processed string together with the inline renderer calls made. -/
def attributes (R : Renderer) (b : List Char) : List Char × List InlineCall :=
  if b.isEmpty then ([], [])
  else
    let buf := R.escape b
    attrLoop R buf buf.length 0 [] []

/-! ## Pending-text flushing (`_Fill`, `_Example`) -/

/-- `_Fill()`: sends `self._buf` to the renderer (via `_Attributes`, which
drains the buffer) and clears it; a no-op on an empty buffer. -/
def fill (R : Renderer) (s : ConvState) : ConvState × List Emit :=
  if s.buf.isEmpty then (s, [])
  else
    let s' := { s with buf := [] }
    (s', [⟨.fill (attributes R s.buf).1, s'.buf⟩])

/-- `_Example(line)`: renders `line` as an example line (the buffer is set
to `line` and immediately drained by `_Attributes`). -/
def exampleEmit (R : Renderer) (s : ConvState) (l : List Char) : ConvState × List Emit :=
  if l.isEmpty then (s, [])
  else
    let s' := { s with buf := [] }
    (s', [⟨.exampleLine (attributes R l).1, s'.buf⟩])

/-! ## Line classifiers (`_Convert*`)

Each classifier takes the right-trimmed current line and the cursor `i`,
and returns the new state, the emitted renderer calls, and `some i'` when
the line is not consumed (Python return value `i`), `none` when it is
(Python `-1`). -/

/-- `_ConvertBlankLine(i)`. -/
def convertBlankLine (R : Renderer) (s : ConvState) (line : Line) (i : Nat) :
    Except Unit (ConvState × List Emit × Option Nat) :=
  if ¬line.isEmpty then .ok (s, [], some i)
  else
    let fp := fill R s
    let s1 := fp.1
    let e1 := fp.2
    match pyGetL s1.lists s1.depth with
    | .error e => .error e
    | .ok st =>
      let s2 := if st.bullet then { s1 with depth := s1.depth - 1 } else s1
      let e2 : List Emit := if st.bullet then [⟨.list 0 none, s1.buf⟩] else []
      match pyGetL s2.lists s2.depth with
      | .error e => .error e
      | .ok st2 =>
        match (if st2.ignoreLine ≠ 0 then
                 pySetL s2.lists s2.depth { st2 with ignoreLine := st2.ignoreLine - 1 }
               else .ok s2.lists) with
        | .error e => .error e
        | .ok lists3 =>
          let s3 := { s2 with lists := lists3 }
          if s3.depth = 0 then .ok (s3, e1 ++ e2 ++ [⟨.line, s3.buf⟩], none)
          else
            match pyGetL s3.lists s3.depth with
            | .error e => .error e
            | .ok st3 =>
              if st3.ignoreLine = 0 then .ok (s3, e1 ++ e2 ++ [⟨.line, s3.buf⟩], none)
              else .ok (s3, e1 ++ e2, none)

/-- `_ConvertParagraph(i)`: a line that is exactly `"+"`. -/
def convertParagraph (R : Renderer) (s : ConvState) (line : Line) (i : Nat) :
    ConvState × List Emit × Option Nat :=
  if line.length ≠ 1 ∨ line.getD 0 ' ' ≠ '+' then (s, [], some i)
  else
    let fp := fill R s
    ({ fp.1 with nextParagraph := true }, fp.2 ++ [⟨.line, fp.1.buf⟩], none)

/-- The scan loop of `_ConvertHeading`:
`while i < len(line) and line[i] == '=' and line[-(i+1)] == '=': i += 1`.
The cursor advances one step per iteration and stops at `i = len(line)` at
the latest, so `fuel = line.length` is never exhausted before the loop's
own exit (both indices are in range while `i < len(line)`). -/
def headScan (line : Line) : Nat → Nat → Nat
  | 0, i => i
  | fuel + 1, i =>
    if i < line.length ∧ line.getD i ' ' = '=' ∧
       line.getD (line.length - (i + 1)) ' ' = '=' then
      headScan line fuel (i + 1)
    else i

/-- The NAME/SYNOPSIS reader loop inside `_ConvertHeading`: reads raw lines
itself, trims old-style `::` suffixes, and stops at end of input or after
rendering one `Synopsis` for the first line that is non-empty after
trimming (consuming two extra lines in the old-style SYNOPSIS case). -/
def synLoop (R : Renderer) (ht : List Char) (oldStyle : Bool) :
    List Line → List Emit × List Line
  | [] => ([], [])
  | l :: rest =>
    let b := pyRstrip l
    let trim : Bool := decide (2 < b.length) && decide (b.getD (b.length - 1) ' ' = ':') &&
                       decide (b.getD (b.length - 2) ' ' = ':')
    let b2 := if trim then pySlice b 0 (-2) else b
    let oldStyle2 := oldStyle || trim
    if b2.isEmpty then synLoop R ht oldStyle2 rest
    else
      ([⟨.synopsis (attributes R b2).1, []⟩],
       if oldStyle2 = true ∧ ht = "SYNOPSIS".toList then rest.drop 2 else rest)

/-- `_ConvertHeading(i)`: `= text =` with equal `=` runs and single bounding
spaces.  Also returns the remaining input lines (the NAME/SYNOPSIS branch
reads lines itself). -/
def convertHeading (R : Renderer) (s : ConvState) (line : Line) (rest : List Line)
    (i : Nat) : Except Unit (ConvState × List Emit × List Line × Option Nat) :=
  let j := i
  let n := headScan line line.length i
  if n = 0 then .ok (s, [], rest, some j)
  else
    match pyGetL line (n : Int) with
    | .error e => .error e
    | .ok c1 =>
      if c1 ≠ ' ' then .ok (s, [], rest, some j)
      else
        match pyGetL line (-((n : Int) + 1)) with
        | .error e => .error e
        | .ok c2 =>
          if c2 ≠ ' ' then .ok (s, [], rest, some j)
          else
            let fp := fill R s
            let hbuf := pySlice line ((n : Int) + 1) (-((n : Int) + 1))
            let ht := (attributes R hbuf).1
            let s2 := { fp.1 with buf := [], depth := 0 }
            let e2 := fp.2 ++ [⟨.heading n ht, s2.buf⟩]
            if ht = "NAME".toList ∨ ht = "SYNOPSIS".toList then
              let sp := synLoop R ht false rest
              .ok (s2, e2 ++ sp.1, sp.2, none)
            else if truthy s2.notes ∧ ht = "NOTES".toList then
              .ok ({ s2 with buf := s2.notes.getD [], notes := none }, e2, rest, none)
            else .ok (s2, e2, rest, none)

/-- The row-reading loop of `_ConvertTable`: reads raw lines until end of
input or until a second line starting with `|====` (a countdown from 2),
emitting every other line as a table row. -/
def tableLoop (R : Renderer) (delim : Int) : List Line → List Emit × List Line
  | [] => ([], [])
  | l :: rest =>
    let b := pyRstrip l
    if "|====".toList.isPrefixOf b then
      if delim - 1 ≤ 0 then ([], rest)
      else tableLoop R (delim - 1) rest
    else
      let tp := tableLoop R delim rest
      (⟨.table (some (attributes R b).1), []⟩ :: tp.1, tp.2)

/-- `_ConvertTable(i)`: a `[...format="csv"...]` header line followed by a
delimited block of rows; consumes its own input lines. -/
def convertTable (R : Renderer) (s : ConvState) (line : Line) (rest : List Line)
    (i : Nat) : Except Unit (ConvState × List Emit × List Line × Option Nat) :=
  match pyGetL line 0 with
  | .error e => .error e
  | .ok c0 =>
    match pyGetL line (-1) with
    | .error e => .error e
    | .ok cl =>
      if c0 ≠ '[' ∨ cl ≠ ']' ∨ ¬pyContains line ("format=\"csv\"".toList) then
        .ok (s, [], rest, some i)
      else
        let tp := tableLoop R 2 rest
        .ok ({ s with buf := [] },
             ⟨.table (some line), s.buf⟩ :: (tp.1 ++ [⟨.table none, []⟩]), tp.2, none)

/-- The pop loop `while self._lists[self._depth].level > level: self._depth -= 1`
shared by the definition-list and bullet-list classifiers.  Each iteration
decrements `depth`; a read below `-len(lists)` raises, so the loop always
exits or raises within `depth.toNat + lists.length + 1` iterations and the
fuel passed by the callers is never exhausted first. -/
def popLoop (lists : List ListElementState) (level : Nat) :
    Nat → Int → Except Unit Int
  | 0, _ => .error ()
  | fuel + 1, depth =>
    match pyGetL lists depth with
    | .error e => .error e
    | .ok st =>
      if level < st.level then popLoop lists level fuel (depth - 1)
      else .ok depth

/-- `_ConvertDefinitionList(i)`: `term::` lines (colon-run length gives the
nesting level). -/
def convertDefinitionList (R : Renderer) (s : ConvState) (line : Line) (i0 : Nat) :
    Except Unit (ConvState × List Emit × Option Nat) :=
  let i := advanceWhile (fun c => c = ' ') line i0
  if i ≠ 0 then .ok (s, [], some i)
  else
    match findSub line ("::".toList) with
    | none => .ok (s, [], some i)
    | some j =>
      let i2 := advanceWhile (fun c => c = ':') line (j + 2)
      let level := 1 + (i2 - (j + 2))
      match pyGetL s.lists s.depth with
      | .error e => .error e
      | .ok st =>
        let adj : Except Unit (Int × List ListElementState) :=
          if st.bullet ∨ st.level < level then
            let d := s.depth + 1
            .ok (d, if (s.lists.length : Int) ≤ d then s.lists ++ [{}] else s.lists)
          else
            match popLoop s.lists level (2 * s.lists.length + s.depth.toNat + 2) s.depth with
            | .error e => .error e
            | .ok d => .ok (d, s.lists)
        match adj with
        | .error e => .error e
        | .ok (d, lists1) =>
          match pySetL lists1 d { bullet := false, ignoreLine := 2, level := level } with
          | .error e => .error e
          | .ok lists2 =>
            let i3 := advanceWhile (fun c => c = ' ') line i2
            let fp := fill R { s with depth := d, lists := lists2 }
            let term := pySlice line 0 (j : Int)
            let s2 := { fp.1 with buf := [] }
            let e2 := fp.2 ++ [⟨.list d (some (attributes R term).1), s2.buf⟩]
            let s3 := if i3 < line.length then { s2 with buf := s2.buf ++ line.drop i3 }
                      else s2
            .ok (s3, e2, none)

/-- `_ConvertBulletList(i)`: a run of `-` or `*` followed by a space;
nesting level is `i / 2` plus the run length. -/
def convertBulletList (R : Renderer) (s : ConvState) (line : Line) (i : Nat) :
    Except Unit (ConvState × List Emit × Option Nat) :=
  match pyGetL line (i : Int) with
  | .error e => .error e
  | .ok c =>
    if ¬(c = '-' ∨ c = '*') then .ok (s, [], some i)
    else
      let j := advanceWhile (fun x => x = c) line i
      let level := i / 2 + (j - i)
      if line.length ≤ j ∨ line.getD j ' ' ≠ ' ' then .ok (s, [], some i)
      else
        match pyGetL s.lists s.depth with
        | .error e => .error e
        | .ok st =>
          let adj : Except Unit (Int × List ListElementState) :=
            if st.bullet ∧ level ≤ st.level then
              match popLoop s.lists level (2 * s.lists.length + s.depth.toNat + 2) s.depth with
              | .error e => .error e
              | .ok d => .ok (d, s.lists)
            else
              let d := s.depth + 1
              .ok (d, if (s.lists.length : Int) ≤ d then s.lists ++ [{}] else s.lists)
          match adj with
          | .error e => .error e
          | .ok (d, lists1) =>
            match pySetL lists1 d { bullet := true, ignoreLine := 0, level := level } with
            | .error e => .error e
            | .ok lists2 =>
              let fp := fill R { s with depth := d, lists := lists2 }
              let e2 := fp.2 ++ [⟨.list d none, fp.1.buf⟩]
              let j2 := advanceWhile (fun x => x = ' ') line j
              .ok ({ fp.1 with buf := fp.1.buf ++ line.drop j2 }, e2, none)

/-- `_ConvertExample(i)`: an indented line, at top level or inside an
active example/paragraph continuation. -/
def convertExample (R : Renderer) (s : ConvState) (line : Line) (i : Nat) :
    ConvState × List Emit × Option Nat :=
  if i = 0 ∨ (s.depth ≠ 0 ∧ ¬(s.exampleIndent ≠ 0 ∨ s.paragraph)) then (s, [], some i)
  else
    let fp := fill R s
    let s2 := if fp.1.exampleIndent = 0 ∨ i < fp.1.exampleIndent then
                { fp.1 with exampleIndent := i }
              else fp.1
    let ep := exampleEmit R s2 (line.drop s2.exampleIndent)
    ({ ep.1 with nextExampleIndent := ep.1.exampleIndent }, fp.2 ++ ep.2, none)

/-- `_ConvertEndOfList(i)`: an unindented line while inside a list; never
consumes the line (the chain continues). -/
def convertEndOfList (R : Renderer) (s : ConvState) (i : Nat) :
    Except Unit (ConvState × List Emit × Option Nat) :=
  if i ≠ 0 ∨ s.depth = 0 then .ok (s, [], some i)
  else
    match pyGetL s.lists s.depth with
    | .error e => .error e
    | .ok st =>
      match (if 1 < st.ignoreLine then
               pySetL s.lists s.depth { st with ignoreLine := st.ignoreLine - 1 }
             else .ok s.lists) with
      | .error e => .error e
      | .ok lists1 =>
        let s1 := { s with lists := lists1 }
        match pyGetL s1.lists s1.depth with
        | .error e => .error e
        | .ok st2 =>
          if st2.ignoreLine = 0 then
            let fp := fill R s1
            .ok ({ fp.1 with depth := 0 }, fp.2 ++ [⟨.list 0 none, fp.1.buf⟩], some i)
          else .ok (s1, [], some i)

/-- `_ConvertRemainder(i)`: fallback text accumulation; always consumes. -/
def convertRemainder (s : ConvState) (line : Line) (i : Nat) :
    ConvState × List Emit × Option Nat :=
  ({ s with buf := s.buf ++ ' ' :: line.drop i }, [], none)

/-! ## Document driver (`Run`, `_Finish`, `RenderDocument`) -/

/-- One iteration of the classifier chain of `Run` on the (right-trimmed)
current line: each classifier either consumes the line or passes the
cursor to the next; `_ConvertRemainder` always consumes.  Returns the new
state, the emitted renderer calls, and the remaining input lines (the
heading and table classifiers read lines themselves). -/
def convertLine (R : Renderer) (s : ConvState) (line : Line) (rest : List Line) :
    Except Unit (ConvState × List Emit × List Line) :=
  match convertBlankLine R s line 0 with
  | .error e => .error e
  | .ok (s1, e1, none) => .ok (s1, e1, rest)
  | .ok (s1, e1, some i1) =>
    match convertParagraph R s1 line i1 with
    | (s2, e2, none) => .ok (s2, e1 ++ e2, rest)
    | (s2, e2, some i2) =>
      match convertHeading R s2 line rest i2 with
      | .error e => .error e
      | .ok (s3, e3, rest3, none) => .ok (s3, e1 ++ e2 ++ e3, rest3)
      | .ok (s3, e3, rest3, some i3) =>
        match convertTable R s3 line rest3 i3 with
        | .error e => .error e
        | .ok (s4, e4, rest4, none) => .ok (s4, e1 ++ e2 ++ e3 ++ e4, rest4)
        | .ok (s4, e4, rest4, some i4) =>
          match convertDefinitionList R s4 line i4 with
          | .error e => .error e
          | .ok (s5, e5, none) => .ok (s5, e1 ++ e2 ++ e3 ++ e4 ++ e5, rest4)
          | .ok (s5, e5, some i5) =>
            match convertBulletList R s5 line i5 with
            | .error e => .error e
            | .ok (s6, e6, none) => .ok (s6, e1 ++ e2 ++ e3 ++ e4 ++ e5 ++ e6, rest4)
            | .ok (s6, e6, some i6) =>
              match convertExample R s6 line i6 with
              | (s7, e7, none) =>
                .ok (s7, e1 ++ e2 ++ e3 ++ e4 ++ e5 ++ e6 ++ e7, rest4)
              | (s7, e7, some i7) =>
                match convertEndOfList R s7 i7 with
                | .error e => .error e
                | .ok (s8, e8, none) =>
                  .ok (s8, e1 ++ e2 ++ e3 ++ e4 ++ e5 ++ e6 ++ e7 ++ e8, rest4)
                | .ok (s8, e8, some i8) =>
                  match convertRemainder s8 line i8 with
                  | (s9, e9, _) =>
                    .ok (s9, e1 ++ e2 ++ e3 ++ e4 ++ e5 ++ e6 ++ e7 ++ e8 ++ e9, rest4)

/-- The read-classify loop of `Run` (for the non-markdown renderers): latch
the example/paragraph lookahead values, read a line, right-trim it, and
run the classifier chain.  `fuel` bounds the number of iterations; since
`convertLine` only ever returns a suffix of the lines after the current
one, the entry point's `fuel = lines.length` is never exhausted before the
input runs out (see `runLines_fuel_irrelevant`). -/
def runLines (R : Renderer) : Nat → ConvState → List Line → Except Unit (ConvState × List Emit)
  | _, s, [] => .ok (s, [])
  | 0, s, _ :: _ => .ok (s, [])
  | fuel + 1, s, l :: rest =>
    let s1 := { s with exampleIndent := s.nextExampleIndent, nextExampleIndent := 0,
                       paragraph := s.nextParagraph, nextParagraph := false }
    match convertLine R s1 (pyRstrip l) rest with
    | .error e => .error e
    | .ok (s2, evs, rest') =>
      match runLines R fuel s2 rest' with
      | .error e => .error e
      | .ok (s3, evs') => .ok (s3, evs ++ evs')

/-- `_Finish()`: flush the fill buffer and append a synthesized NOTES
section when pending notes text was never consumed by a NOTES heading. -/
def finishConv (R : Renderer) (s : ConvState) : List Emit :=
  let fp := fill R s
  let s1 := fp.1
  if truthy s1.notes then
    let fp2 := fill R { s1 with buf := s1.buf ++ s1.notes.getD [] }
    fp.2 ++ [⟨.line, s1.buf⟩, ⟨.heading 2 ("NOTES".toList), s1.buf⟩] ++ fp2.2 ++
      [⟨.finish, fp2.1.buf⟩]
  else fp.2 ++ [⟨.finish, s1.buf⟩]

/-- `Run()` up to (but not including) `_Finish`: the full classifier pass
over the input, returning the final converter state and the event trace. -/
def runAll (R : Renderer) (notes : Option (List Char)) (lines : List Line) :
    Except Unit (ConvState × List Emit) :=
  runLines R lines.length (initState notes) lines

/-- `Run()` for a non-markdown renderer: classifier pass then `_Finish`. -/
def run (R : Renderer) (notes : Option (List Char)) (lines : List Line) :
    Except Unit (List Emit) :=
  match runAll R notes lines with
  | .error e => .error e
  | .ok (s, evs) => .ok (evs ++ finishConv R s)

/-- `self._fin.read()`: the raw stream contents (each line with its
implicit trailing newline). -/
def joinLines : List Line → List Char
  | [] => []
  | l :: rest => l ++ '\n' :: joinLines rest

/-- The line loop of `_ConvertMarkdownToMarkdown` (when notes are to be
edited in): write each raw line through, splicing the notes text right
after a literal `== NOTES ==` line, or appending a fresh NOTES section at
end of input when that line was never seen. -/
def mdLoop (notes : List Char) : List Line → List Emit
  | [] =>
    if ¬notes.isEmpty then
      [⟨.write (('\n' :: '\n' :: "== NOTES ==".toList) ++ '\n' :: '\n' :: notes ++ ['\n']), []⟩]
    else []
  | l :: rest =>
    ⟨.write (l ++ ['\n']), []⟩ ::
      (if ¬notes.isEmpty ∧ l = "== NOTES ==".toList then
        ⟨.write ('\n' :: notes ++ ['\n']), []⟩ :: mdLoop [] rest
      else mdLoop notes rest)

/-- `_ConvertMarkdownToMarkdown()`: the markdown-identity path, a raw
pass-through unless NOTES edits are required. -/
def convertMarkdownToMarkdown (notes : Option (List Char)) (lines : List Line) :
    List Emit :=
  if ¬truthy notes then [⟨.write (joinLines lines), []⟩]
  else mdLoop (notes.getD []) lines

/-- The keys of `_STYLES`. -/
def STYLES : List (List Char) :=
  ["devsite".toList, "html".toList, "man".toList, "markdown".toList, "text".toList]

/-- The `ValueError` message raised by `RenderDocument` for an unknown
style. -/
def unknownStyleMsg (style : List Char) : List Char :=
  "Unknown markdown document style [".toList ++ style ++ "].".toList

/-- `RenderDocument(style, ...)`: raises `ValueError` (the outer
`.error msg`) for a style outside `_STYLES` before any input is read;
otherwise dispatches to the markdown-identity path or the converter
(whose own `IndexError` crashes are the inner `Except Unit`). -/
def RenderDocument (R : Renderer) (style : List Char) (notes : Option (List Char))
    (lines : List Line) : Except (List Char) (Except Unit (List Emit)) :=
  if STYLES.contains style then
    .ok (if style = "markdown".toList then .ok (convertMarkdownToMarkdown notes lines)
         else run R notes lines)
  else .error (unknownStyleMsg style)

/-- A concrete renderer with identity escaping, used for closed test
inputs (`Escape` is the identity, `Font` contributes nothing to the text,
`Link` displays the target). -/
def idR : Renderer := ⟨fun s => s, fun _ => [], fun t _ => t⟩

/-! ## Derived notions used in the statements below -/

/-- A symmetric heading line: a run of `n` `=`s, one space, the text, one
space, and a closing run of `n` `=`s. -/
def headingLine (n : Nat) (t : List Char) : Line :=
  List.replicate n '=' ++ ' ' :: (t ++ ' ' :: List.replicate n '=')

/-- The trace emitted by one `_Fill()` call on a buffer holding `b`. -/
def fillE (R : Renderer) (b : List Char) : List Emit :=
  if b.isEmpty then [] else [⟨.fill (attributes R b).1, []⟩]

/-- Recognizes a rendered `Heading` call whose text is `NOTES`. -/
def isNotesHeading (e : Emit) : Bool :=
  match e.ev with
  | .heading _ t => t == "NOTES".toList
  | _ => false

/-- Recognizes a rendered `Synopsis` call. -/
def isSynopsisEv (e : Emit) : Bool :=
  match e.ev with
  | .synopsis _ => true
  | _ => false

/-- Recognizes a rendered `List` call. -/
def isListEv (e : Emit) : Bool :=
  match e.ev with
  | .list _ _ => true
  | _ => false

/-- The flushing discipline: a structural `Heading` or `List` renderer call
must happen with an empty pending-text buffer. -/
def flushedOK (e : Emit) : Bool :=
  match e.ev with
  | .heading _ _ => e.bufAt.isEmpty
  | .list _ _ => e.bufAt.isEmpty
  | _ => true

/-- The step invariant relating a state `s` before some converter steps, the
state `s'` after them, and the events `evs` they emitted: the pending notes
are preserved unless a `NOTES` heading was rendered (in which case, if they
were truthy, they are cleared and never re-established), and every
structural `Heading`/`List` call happened with an empty pending buffer. -/
def lineOK (s s' : ConvState) (evs : List Emit) : Prop :=
  (evs.any isNotesHeading = false → s'.notes = s.notes) ∧
  (truthy s.notes = true → evs.any isNotesHeading = true → s'.notes = none) ∧
  (s'.notes = s.notes ∨ s'.notes = none) ∧
  evs.all flushedOK = true

/-! ## Theorems -/

/-! ### Helper lemmas about `_Fill` and the step invariant -/

theorem fill_eq (R : Renderer) (s : ConvState) :
    fill R s = ({ s with buf := [] }, fillE R s.buf) := by
  cases s with
  | mk b no ls d ex nex pa npa =>
    by_cases h : b.isEmpty
    · have hb : b = [] := by simpa using h
      subst hb
      simp [fill, fillE]
    · simp [fill, fillE, h]

theorem lineOK_refl (s : ConvState) : lineOK s s [] := by
  simp [lineOK]

theorem lineOK_of_neutral {s s' : ConvState} {evs : List Emit}
    (hn : s'.notes = s.notes) (ha : evs.any isNotesHeading = false)
    (hf : evs.all flushedOK = true) : lineOK s s' evs := by
  refine ⟨fun _ => hn, fun _ hcon => ?_, Or.inl hn, hf⟩
  rw [ha] at hcon
  exact absurd hcon (by simp)

theorem lineOK_trans {s s1 s2 : ConvState} {e1 e2 : List Emit}
    (h1 : lineOK s s1 e1) (h2 : lineOK s1 s2 e2) : lineOK s s2 (e1 ++ e2) := by
  obtain ⟨p1, c1, d1, f1⟩ := h1
  obtain ⟨p2, c2, d2, f2⟩ := h2
  refine ⟨?_, ?_, ?_, ?_⟩
  · intro h
    rw [List.any_append, Bool.or_eq_false_iff] at h
    rw [p2 h.2, p1 h.1]
  · intro ht h
    rw [List.any_append, Bool.or_eq_true] at h
    rcases h with h | h
    · have hn1 : s1.notes = none := c1 ht h
      rcases d2 with h2' | h2'
      · rw [h2', hn1]
      · exact h2'
    · by_cases h1a : e1.any isNotesHeading = true
      · have hn1 : s1.notes = none := c1 ht h1a
        rcases d2 with h2' | h2'
        · rw [h2', hn1]
        · exact h2'
      · have : s1.notes = s.notes := p1 (by simpa using h1a)
        exact c2 (by rw [this]; exact ht) h
  · rcases d2 with h2' | h2'
    · rw [h2']; exact d1
    · exact Or.inr h2'
  · rw [List.all_append, f1, f2]; rfl

theorem fillE_any_notes (R : Renderer) (b : List Char) :
    (fillE R b).any isNotesHeading = false := by
  by_cases h : b.isEmpty <;> simp [fillE, h, isNotesHeading]

theorem fillE_all_flushed (R : Renderer) (b : List Char) :
    (fillE R b).all flushedOK = true := by
  by_cases h : b.isEmpty <;> simp [fillE, h, flushedOK]

theorem convertBlankLine_lineOK (R : Renderer) (s : ConvState) (line : Line) (i : Nat)
    (s' : ConvState) (evs : List Emit) (r : Option Nat)
    (h : convertBlankLine R s line i = .ok (s', evs, r)) : lineOK s s' evs := by
  unfold convertBlankLine at h
  simp only [fill_eq] at h
  try dsimp only at h
  split at h
  · simp only [Except.ok.injEq, Prod.mk.injEq] at h
    obtain ⟨rfl, rfl, rfl⟩ := h
    exact lineOK_refl s
  · repeat' split at h
    all_goals try exact Except.noConfusion h
    all_goals simp only [Except.ok.injEq, Prod.mk.injEq] at h
    all_goals obtain ⟨rfl, rfl, rfl⟩ := h
    all_goals
      refine lineOK_of_neutral rfl ?_ ?_ <;>
        simp [List.any_append, List.all_append, fillE_any_notes, fillE_all_flushed,
              isNotesHeading, flushedOK]

/-! ### The loop fuel is irrelevant: `convertLine` only ever hands back a
suffix of the pending input, so any fuel of at least the input length
computes the same result as `runLines` with exactly the input length. -/

theorem tableLoop_rest_le (R : Renderer) (d : Int) (ls : List Line) :
    (tableLoop R d ls).2.length ≤ ls.length := by
  induction ls generalizing d with
  | nil => simp [tableLoop]
  | cons l rest ih =>
    rw [tableLoop]
    dsimp only
    split
    · split
      · simp
      · exact le_trans (ih _) (by simp)
    · exact le_trans (ih d) (by simp)

theorem synLoop_rest_le (R : Renderer) (ht : List Char) (o : Bool) (ls : List Line) :
    (synLoop R ht o ls).2.length ≤ ls.length := by
  induction ls generalizing o with
  | nil => simp [synLoop]
  | cons l rest ih =>
    rw [synLoop]
    try dsimp only
    repeat' split
    all_goals first
      | exact le_trans (ih _) (by simp)
      | (simp only [List.length_drop, List.length_cons]; omega)

theorem convertHeading_rest_le (R : Renderer) (s : ConvState) (line : Line)
    (rest : List Line) (i : Nat) (s' : ConvState) (evs : List Emit)
    (rest' : List Line) (r : Option Nat)
    (h : convertHeading R s line rest i = .ok (s', evs, rest', r)) :
    rest'.length ≤ rest.length := by
  unfold convertHeading at h
  simp only [fill_eq] at h
  try dsimp only at h
  repeat' split at h
  all_goals try exact Except.noConfusion h
  all_goals simp only [Except.ok.injEq, Prod.mk.injEq] at h
  all_goals obtain ⟨rfl, rfl, rfl, rfl⟩ := h
  all_goals first
    | exact le_refl _
    | exact synLoop_rest_le R _ false rest

theorem convertTable_rest_le (R : Renderer) (s : ConvState) (line : Line)
    (rest : List Line) (i : Nat) (s' : ConvState) (evs : List Emit)
    (rest' : List Line) (r : Option Nat)
    (h : convertTable R s line rest i = .ok (s', evs, rest', r)) :
    rest'.length ≤ rest.length := by
  unfold convertTable at h
  try dsimp only at h
  repeat' split at h
  all_goals try exact Except.noConfusion h
  all_goals simp only [Except.ok.injEq, Prod.mk.injEq] at h
  all_goals obtain ⟨rfl, rfl, rfl, rfl⟩ := h
  all_goals first
    | exact le_refl _
    | exact tableLoop_rest_le R 2 rest

theorem convertLine_rest_le (R : Renderer) (s : ConvState) (line : Line)
    (rest : List Line) (s' : ConvState) (evs : List Emit) (rest' : List Line)
    (h : convertLine R s line rest = .ok (s', evs, rest')) :
    rest'.length ≤ rest.length := by
  unfold convertLine at h
  split at h
  · exact Except.noConfusion h
  case _ heq =>
    simp only [Except.ok.injEq, Prod.mk.injEq] at h
    obtain ⟨rfl, rfl, rfl⟩ := h
    exact le_refl _
  case _ heq =>
    split at h
    case _ heq2 =>
      simp only [Except.ok.injEq, Prod.mk.injEq] at h
      obtain ⟨rfl, rfl, rfl⟩ := h
      exact le_refl _
    case _ heq2 =>
      split at h
      · exact Except.noConfusion h
      case _ heq3 =>
        simp only [Except.ok.injEq, Prod.mk.injEq] at h
        obtain ⟨rfl, rfl, rfl⟩ := h
        exact convertHeading_rest_le R _ line rest _ _ _ _ _ heq3
      case _ s3 e3 rest3 i3 heq3 =>
        have h3 : rest3.length ≤ rest.length :=
          convertHeading_rest_le R _ line rest _ _ _ _ _ heq3
        split at h
        · exact Except.noConfusion h
        case _ heq4 =>
          simp only [Except.ok.injEq, Prod.mk.injEq] at h
          obtain ⟨rfl, rfl, rfl⟩ := h
          exact le_trans (convertTable_rest_le R _ line rest3 _ _ _ _ _ heq4) h3
        case _ s4 e4 rest4 i4 heq4 =>
          have h4 : rest4.length ≤ rest.length :=
            le_trans (convertTable_rest_le R _ line rest3 _ _ _ _ _ heq4) h3
          repeat' split at h
          all_goals try exact Except.noConfusion h
          all_goals simp only [Except.ok.injEq, Prod.mk.injEq] at h
          all_goals obtain ⟨rfl, rfl, rfl⟩ := h
          all_goals exact h4

theorem runLines_fuel_irrelevant (R : Renderer) :
    ∀ (f1 f2 : Nat) (s : ConvState) (ls : List Line),
      ls.length ≤ f1 → ls.length ≤ f2 →
      runLines R f1 s ls = runLines R f2 s ls := by
  intro f1
  induction f1 with
  | zero =>
    intro f2 s ls h1 h2
    have : ls = [] := List.eq_nil_of_length_eq_zero (by omega)
    subst this
    cases f2 <;> rfl
  | succ f ih =>
    intro f2 s ls h1 h2
    cases ls with
    | nil => cases f2 <;> rfl
    | cons l rest =>
      cases f2 with
      | zero => simp at h2
      | succ f2' =>
        rw [runLines, runLines]
        try dsimp only
        split
        · rfl
        case _ s2 evsA rest' heq =>
          have hle := convertLine_rest_le R _ (pyRstrip l) rest _ _ _ heq
          rw [ih f2' s2 rest' (by simp at h1; omega) (by simp at h2; omega)]

theorem convertParagraph_lineOK (R : Renderer) (s : ConvState) (line : Line) (i : Nat)
    (s' : ConvState) (evs : List Emit) (r : Option Nat)
    (h : convertParagraph R s line i = (s', evs, r)) : lineOK s s' evs := by
  unfold convertParagraph at h
  simp only [fill_eq] at h
  try dsimp only at h
  split at h
  all_goals simp only [Prod.mk.injEq] at h
  all_goals obtain ⟨rfl, rfl, rfl⟩ := h
  · exact lineOK_refl s
  · refine lineOK_of_neutral rfl ?_ ?_ <;>
      simp [List.any_append, List.all_append, fillE_any_notes, fillE_all_flushed,
            isNotesHeading, flushedOK]

theorem synLoop_events (R : Renderer) (ht : List Char) (o : Bool) (ls : List Line) :
    (synLoop R ht o ls).1.any isNotesHeading = false ∧
    (synLoop R ht o ls).1.all flushedOK = true := by
  induction ls generalizing o with
  | nil => simp [synLoop]
  | cons l rest ih =>
    unfold synLoop
    dsimp only
    repeat' split
    all_goals first
      | exact ih _
      | simp [isNotesHeading, flushedOK]

theorem tableLoop_events (R : Renderer) (d : Int) (ls : List Line) :
    (tableLoop R d ls).1.any isNotesHeading = false ∧
    (tableLoop R d ls).1.all flushedOK = true := by
  induction ls generalizing d with
  | nil => simp [tableLoop]
  | cons l rest ih =>
    unfold tableLoop
    dsimp only
    split
    · split
      · simp
      · exact ih _
    · simpa [isNotesHeading, flushedOK] using ih d

theorem convertHeading_lineOK (R : Renderer) (s : ConvState) (line : Line)
    (rest : List Line) (i : Nat) (s' : ConvState) (evs : List Emit)
    (rest' : List Line) (r : Option Nat)
    (h : convertHeading R s line rest i = .ok (s', evs, rest', r)) : lineOK s s' evs := by
  unfold convertHeading at h
  simp only [fill_eq] at h
  try dsimp only at h
  split at h
  · simp only [Except.ok.injEq, Prod.mk.injEq] at h
    obtain ⟨rfl, rfl, rfl, rfl⟩ := h
    exact lineOK_refl s
  · split at h
    · exact Except.noConfusion h
    · split at h
      · simp only [Except.ok.injEq, Prod.mk.injEq] at h
        obtain ⟨rfl, rfl, rfl, rfl⟩ := h
        exact lineOK_refl s
      · split at h
        · exact Except.noConfusion h
        · split at h
          · simp only [Except.ok.injEq, Prod.mk.injEq] at h
            obtain ⟨rfl, rfl, rfl, rfl⟩ := h
            exact lineOK_refl s
          · -- the heading is consumed
            split at h
            · -- NAME/SYNOPSIS branch
              rename_i hns
              simp only [Except.ok.injEq, Prod.mk.injEq] at h
              obtain ⟨rfl, rfl, rfl, rfl⟩ := h
              refine lineOK_of_neutral rfl ?_ ?_
              · rw [List.any_append, List.any_append, fillE_any_notes,
                    (synLoop_events R _ false rest).1]
                simp only [List.any_cons, List.any_nil, isNotesHeading,
                           Bool.or_false, Bool.false_or]
                rcases hns with hns | hns <;> rw [hns] <;> rfl
              · rw [List.all_append, List.all_append, fillE_all_flushed,
                    (synLoop_events R _ false rest).2]
                rfl
            · split at h
              · -- NOTES splice branch
                rename_i hno
                simp only [Except.ok.injEq, Prod.mk.injEq] at h
                obtain ⟨rfl, rfl, rfl, rfl⟩ := h
                refine ⟨?_, fun _ _ => rfl, Or.inr rfl, ?_⟩
                · intro hfalse
                  rw [List.any_append, fillE_any_notes] at hfalse
                  simp only [List.any_cons, List.any_nil, isNotesHeading,
                             Bool.or_false, Bool.false_or] at hfalse
                  rw [hno.2] at hfalse
                  exact absurd hfalse (by decide)
                · rw [List.all_append, fillE_all_flushed]
                  rfl
              · -- plain heading branch
                rename_i hno
                simp only [Except.ok.injEq, Prod.mk.injEq] at h
                obtain ⟨rfl, rfl, rfl, rfl⟩ := h
                refine ⟨fun _ => rfl, ?_, Or.inl rfl, ?_⟩
                · intro ht hany
                  rw [List.any_append, fillE_any_notes] at hany
                  simp only [List.any_cons, List.any_nil, isNotesHeading,
                             Bool.or_false, Bool.false_or] at hany
                  exact absurd ⟨ht, by simpa using hany⟩ hno
                · rw [List.all_append, fillE_all_flushed]
                  rfl

theorem convertTable_lineOK (R : Renderer) (s : ConvState) (line : Line)
    (rest : List Line) (i : Nat) (s' : ConvState) (evs : List Emit)
    (rest' : List Line) (r : Option Nat)
    (h : convertTable R s line rest i = .ok (s', evs, rest', r)) : lineOK s s' evs := by
  unfold convertTable at h
  try dsimp only at h
  repeat' split at h
  all_goals try exact Except.noConfusion h
  all_goals simp only [Except.ok.injEq, Prod.mk.injEq] at h
  all_goals obtain ⟨rfl, rfl, rfl, rfl⟩ := h
  · exact lineOK_refl s
  · refine lineOK_of_neutral rfl ?_ ?_ <;>
      simp [List.any_append, List.all_append, isNotesHeading, flushedOK,
            (tableLoop_events R 2 rest).1, (tableLoop_events R 2 rest).2]

theorem convertDefinitionList_lineOK (R : Renderer) (s : ConvState) (line : Line)
    (i0 : Nat) (s' : ConvState) (evs : List Emit) (r : Option Nat)
    (h : convertDefinitionList R s line i0 = .ok (s', evs, r)) : lineOK s s' evs := by
  unfold convertDefinitionList at h
  simp only [fill_eq] at h
  try dsimp only at h
  repeat' split at h
  all_goals try exact Except.noConfusion h
  all_goals simp only [Except.ok.injEq, Prod.mk.injEq] at h
  all_goals obtain ⟨rfl, rfl, rfl⟩ := h
  all_goals
    refine lineOK_of_neutral rfl ?_ ?_ <;>
      simp [List.any_append, List.all_append, fillE_any_notes, fillE_all_flushed,
            isNotesHeading, flushedOK]

theorem convertBulletList_lineOK (R : Renderer) (s : ConvState) (line : Line)
    (i : Nat) (s' : ConvState) (evs : List Emit) (r : Option Nat)
    (h : convertBulletList R s line i = .ok (s', evs, r)) : lineOK s s' evs := by
  unfold convertBulletList at h
  simp only [fill_eq] at h
  try dsimp only at h
  repeat' split at h
  all_goals try exact Except.noConfusion h
  all_goals simp only [Except.ok.injEq, Prod.mk.injEq] at h
  all_goals obtain ⟨rfl, rfl, rfl⟩ := h
  all_goals
    refine lineOK_of_neutral rfl ?_ ?_ <;>
      simp [List.any_append, List.all_append, fillE_any_notes, fillE_all_flushed,
            isNotesHeading, flushedOK]

theorem convertExample_lineOK (R : Renderer) (s : ConvState) (line : Line)
    (i : Nat) (s' : ConvState) (evs : List Emit) (r : Option Nat)
    (h : convertExample R s line i = (s', evs, r)) : lineOK s s' evs := by
  unfold convertExample exampleEmit at h
  simp only [fill_eq] at h
  try dsimp only at h
  repeat' split at h
  all_goals simp only [Prod.mk.injEq] at h
  all_goals obtain ⟨rfl, rfl, rfl⟩ := h
  all_goals try exact lineOK_refl s
  all_goals
    refine lineOK_of_neutral rfl ?_ ?_ <;>
      simp [List.any_append, List.all_append, fillE_any_notes, fillE_all_flushed,
            isNotesHeading, flushedOK]

theorem convertEndOfList_lineOK (R : Renderer) (s : ConvState) (i : Nat)
    (s' : ConvState) (evs : List Emit) (r : Option Nat)
    (h : convertEndOfList R s i = .ok (s', evs, r)) : lineOK s s' evs := by
  unfold convertEndOfList at h
  simp only [fill_eq] at h
  try dsimp only at h
  repeat' split at h
  all_goals try exact Except.noConfusion h
  all_goals simp only [Except.ok.injEq, Prod.mk.injEq] at h
  all_goals obtain ⟨rfl, rfl, rfl⟩ := h
  all_goals try exact lineOK_refl s
  all_goals
    refine lineOK_of_neutral rfl ?_ ?_ <;>
      simp [List.any_append, List.all_append, fillE_any_notes, fillE_all_flushed,
            isNotesHeading, flushedOK]

theorem convertRemainder_lineOK (s : ConvState) (line : Line) (i : Nat)
    (s' : ConvState) (evs : List Emit) (r : Option Nat)
    (h : convertRemainder s line i = (s', evs, r)) : lineOK s s' evs := by
  unfold convertRemainder at h
  simp only [Prod.mk.injEq] at h
  obtain ⟨rfl, rfl, rfl⟩ := h
  exact lineOK_of_neutral rfl rfl rfl

theorem convertLine_lineOK (R : Renderer) (s : ConvState) (line : Line)
    (rest : List Line) (s' : ConvState) (evs : List Emit) (rest' : List Line)
    (h : convertLine R s line rest = .ok (s', evs, rest')) : lineOK s s' evs := by
  unfold convertLine at h
  split at h
  · exact Except.noConfusion h
  case _ s1 e1 heq =>
    simp only [Except.ok.injEq, Prod.mk.injEq] at h
    obtain ⟨rfl, rfl, rfl⟩ := h
    exact convertBlankLine_lineOK R s line 0 _ _ _ heq
  case _ s1 e1 i1 heq1 =>
    have H1 := convertBlankLine_lineOK R s line 0 _ _ _ heq1
    split at h
    case _ s2 e2 heq2 =>
      simp only [Except.ok.injEq, Prod.mk.injEq] at h
      obtain ⟨rfl, rfl, rfl⟩ := h
      exact lineOK_trans H1 (convertParagraph_lineOK R s1 line i1 _ _ _ heq2)
    case _ s2 e2 i2 heq2 =>
      have H2 := lineOK_trans H1 (convertParagraph_lineOK R s1 line i1 _ _ _ heq2)
      split at h
      · exact Except.noConfusion h
      case _ s3 e3 rest3 heq3 =>
        simp only [Except.ok.injEq, Prod.mk.injEq] at h
        obtain ⟨rfl, rfl, rfl⟩ := h
        exact lineOK_trans H2 (convertHeading_lineOK R s2 line rest i2 _ _ _ _ heq3)
      case _ s3 e3 rest3 i3 heq3 =>
        have H3 := lineOK_trans H2 (convertHeading_lineOK R s2 line rest i2 _ _ _ _ heq3)
        split at h
        · exact Except.noConfusion h
        case _ s4 e4 rest4 heq4 =>
          simp only [Except.ok.injEq, Prod.mk.injEq] at h
          obtain ⟨rfl, rfl, rfl⟩ := h
          exact lineOK_trans H3 (convertTable_lineOK R s3 line rest3 i3 _ _ _ _ heq4)
        case _ s4 e4 rest4 i4 heq4 =>
          have H4 := lineOK_trans H3 (convertTable_lineOK R s3 line rest3 i3 _ _ _ _ heq4)
          split at h
          · exact Except.noConfusion h
          case _ s5 e5 heq5 =>
            simp only [Except.ok.injEq, Prod.mk.injEq] at h
            obtain ⟨rfl, rfl, rfl⟩ := h
            exact lineOK_trans H4 (convertDefinitionList_lineOK R s4 line i4 _ _ _ heq5)
          case _ s5 e5 i5 heq5 =>
            have H5 := lineOK_trans H4 (convertDefinitionList_lineOK R s4 line i4 _ _ _ heq5)
            split at h
            · exact Except.noConfusion h
            case _ s6 e6 heq6 =>
              simp only [Except.ok.injEq, Prod.mk.injEq] at h
              obtain ⟨rfl, rfl, rfl⟩ := h
              exact lineOK_trans H5 (convertBulletList_lineOK R s5 line i5 _ _ _ heq6)
            case _ s6 e6 i6 heq6 =>
              have H6 := lineOK_trans H5 (convertBulletList_lineOK R s5 line i5 _ _ _ heq6)
              split at h
              case _ s7 e7 heq7 =>
                simp only [Except.ok.injEq, Prod.mk.injEq] at h
                obtain ⟨rfl, rfl, rfl⟩ := h
                exact lineOK_trans H6 (convertExample_lineOK R s6 line i6 _ _ _ heq7)
              case _ s7 e7 i7 heq7 =>
                have H7 := lineOK_trans H6 (convertExample_lineOK R s6 line i6 _ _ _ heq7)
                split at h
                · exact Except.noConfusion h
                case _ s8 e8 heq8 =>
                  simp only [Except.ok.injEq, Prod.mk.injEq] at h
                  obtain ⟨rfl, rfl, rfl⟩ := h
                  exact lineOK_trans H7 (convertEndOfList_lineOK R s7 i7 _ _ _ heq8)
                case _ s8 e8 i8 heq8 =>
                  have H8 := lineOK_trans H7 (convertEndOfList_lineOK R s7 i7 _ _ _ heq8)
                  split at h
                  case _ s9 e9 r9 heq9 =>
                    simp only [Except.ok.injEq, Prod.mk.injEq] at h
                    obtain ⟨rfl, rfl, rfl⟩ := h
                    exact lineOK_trans H8 (convertRemainder_lineOK s8 line i8 _ _ _ heq9)

theorem runLines_lineOK (R : Renderer) :
    ∀ (fuel : Nat) (s : ConvState) (ls : List Line) (s' : ConvState) (evs : List Emit),
      runLines R fuel s ls = .ok (s', evs) → lineOK s s' evs := by
  intro fuel
  induction fuel with
  | zero =>
    intro s ls s' evs h
    cases ls with
    | nil =>
      simp only [runLines, Except.ok.injEq, Prod.mk.injEq] at h
      obtain ⟨rfl, rfl⟩ := h
      exact lineOK_refl s
    | cons l rest =>
      simp only [runLines, Except.ok.injEq, Prod.mk.injEq] at h
      obtain ⟨rfl, rfl⟩ := h
      exact lineOK_refl s
  | succ f ih =>
    intro s ls s' evs h
    cases ls with
    | nil =>
      simp only [runLines, Except.ok.injEq, Prod.mk.injEq] at h
      obtain ⟨rfl, rfl⟩ := h
      exact lineOK_refl s
    | cons l rest =>
      simp only [runLines] at h
      try dsimp only at h
      split at h
      · exact Except.noConfusion h
      case _ s2 evsA rest2 heq =>
        split at h
        · exact Except.noConfusion h
        case _ s3 evsB heq2 =>
          simp only [Except.ok.injEq, Prod.mk.injEq] at h
          obtain ⟨rfl, rfl⟩ := h
          have hA := convertLine_lineOK R _ (pyRstrip l) rest _ _ _ heq
          have hA' : lineOK s s2 evsA := hA
          exact lineOK_trans hA' (ih _ _ _ _ heq2)

theorem finishConv_all_flushed (R : Renderer) (s : ConvState) :
    (finishConv R s).all flushedOK = true := by
  unfold finishConv
  simp only [fill_eq]
  try dsimp only
  split <;>
    simp [List.all_append, fillE_all_flushed, flushedOK]

theorem finishConv_notes_some (R : Renderer) (s : ConvState) (v : List Char)
    (hv : s.notes = some v) (hne : v ≠ []) :
    finishConv R s =
      fillE R s.buf ++ [⟨.line, []⟩, ⟨.heading 2 ("NOTES".toList), []⟩] ++
        fillE R v ++ [⟨.finish, []⟩] := by
  unfold finishConv
  simp only [fill_eq]
  try dsimp only
  rw [hv]
  have ht : truthy (some v) = true := by
    simpa [truthy] using hne
  rw [if_pos ht]
  simp

theorem finishConv_notes_none (R : Renderer) (s : ConvState)
    (hv : s.notes = none) :
    finishConv R s = fillE R s.buf ++ [⟨.finish, []⟩] := by
  unfold finishConv
  simp only [fill_eq]
  try dsimp only
  rw [hv]
  simp [truthy]

/-- C6 (amended): the pending text buffer is always flushed before any
`Heading` or `List` renderer call: in every successful run, every
`Heading`/`List` event is emitted at a moment when the pending buffer is
empty.  (The `Table` primitive is the exception the original claim missed:
the table classifier emits its header without flushing.) -/
theorem structural_calls_flushed (R : Renderer) (notes : Option (List Char))
    (lines : List Line) (evs : List Emit) (h : run R notes lines = .ok evs) :
    evs.all flushedOK = true := by
  unfold run at h
  split at h
  · exact Except.noConfusion h
  case _ s evs0 heq =>
    simp only [Except.ok.injEq] at h
    subst h
    rw [List.all_append]
    have h1 := (runLines_lineOK R lines.length _ lines _ _ heq).2.2.2
    rw [h1, finishConv_all_flushed]
    rfl

/-- Witness for `structural_calls_flushed` on a small bullet-list input. -/
theorem structural_calls_flushed_witness :
    ∃ evs, run idR none ["- a".toList, "-- b".toList] = .ok evs ∧
      evs.all flushedOK = true :=
  ⟨_, rfl, structural_calls_flushed idR none ["- a".toList, "-- b".toList] _ rfl⟩

/-! ### The heading classifier on exactly-symmetric heading lines -/

theorem getD_default_irrel {α : Type} [Inhabited α] (l : List α) (k : Nat)
    (hk : k < l.length) (d : α) : l.getD k default = l.getD k d := by
  rw [List.getD_eq_getElem?_getD, List.getD_eq_getElem?_getD,
      List.getElem?_eq_getElem hk]
  rfl

theorem headingLine_length (n : Nat) (t : List Char) :
    (headingLine n t).length = 2 * n + t.length + 2 := by
  simp [headingLine]
  omega

theorem headingLine_getD_lt (n : Nat) (t : List Char) (i : Nat) (h : i < n) :
    (headingLine n t).getD i ' ' = '=' := by
  rw [headingLine, List.getD_eq_getElem?_getD,
      List.getElem?_append_left (by simpa using h), List.getElem?_replicate]
  simp [h]

theorem headingLine_getD_mid (n : Nat) (t : List Char) :
    (headingLine n t).getD n ' ' = ' ' := by
  rw [headingLine, List.getD_eq_getElem?_getD,
      List.getElem?_append_right (by simp)]
  simp

theorem headingLine_reverse (n : Nat) (t : List Char) :
    (headingLine n t).reverse = headingLine n t.reverse := by
  simp [headingLine, List.reverse_append]

theorem getD_rev (l : List Char) (i : Nat) (h : i < l.length) :
    l.getD (l.length - (i + 1)) ' ' = l.reverse.getD i ' ' := by
  have he : l.length - (i + 1) = l.length - 1 - i := by omega
  rw [he, List.getD_eq_getElem?_getD, List.getD_eq_getElem?_getD,
      List.getElem?_reverse h]

theorem headScan_stop (line : Line) (i : Nat)
    (h : ¬(i < line.length ∧ line.getD i ' ' = '=' ∧
           line.getD (line.length - (i + 1)) ' ' = '=')) :
    ∀ fuel, headScan line fuel i = i := by
  intro fuel
  cases fuel with
  | zero => rfl
  | succ f => rw [headScan, if_neg h]

theorem headScan_headingLine (n : Nat) (t : List Char) (hn : 1 ≤ n) :
    ∀ fuel i, i ≤ n → n - i < fuel → headScan (headingLine n t) fuel i = n := by
  intro fuel
  induction fuel with
  | zero => intro i _ hf; omega
  | succ f ih =>
    intro i hi hf
    rcases Nat.lt_or_ge i n with hlt | hge
    · have hc1 : i < (headingLine n t).length := by
        rw [headingLine_length]; omega
      have hc2 : (headingLine n t).getD i ' ' = '=' := headingLine_getD_lt n t i hlt
      have hc3 : (headingLine n t).getD ((headingLine n t).length - (i + 1)) ' ' =
          '=' := by
        rw [getD_rev _ _ hc1, headingLine_reverse]
        exact headingLine_getD_lt n t.reverse i hlt
      rw [headScan, if_pos ⟨hc1, hc2, hc3⟩]
      exact ih (i + 1) (by omega) (by omega)
    · have hi' : i = n := by omega
      subst hi'
      rw [headScan, if_neg]
      rintro ⟨-, hsec, -⟩
      rw [headingLine_getD_mid] at hsec
      exact absurd hsec (by decide)

theorem pyGetL_headingLine_mid (n : Nat) (t : List Char) :
    pyGetL (headingLine n t) (n : Int) = .ok ' ' := by
  have hlen := headingLine_length n t
  have hlt : n < (headingLine n t).length := by omega
  unfold pyGetL pyResolve
  rw [if_pos (by positivity), if_pos (by exact_mod_cast hlt)]
  rw [show ((n : Int)).toNat = n from Int.toNat_natCast n]
  dsimp only
  rw [getD_default_irrel _ _ hlt ' ', headingLine_getD_mid]

theorem pyGetL_headingLine_midNeg (n : Nat) (t : List Char) :
    pyGetL (headingLine n t) (-((n : Int) + 1)) = .ok ' ' := by
  have hlen := headingLine_length n t
  have hlt : n < (headingLine n t).length := by omega
  have hle : n + 1 ≤ (headingLine n t).length := by omega
  unfold pyGetL pyResolve
  rw [if_neg (by omega), if_pos (by omega)]
  have hk : (-(-((n : Int) + 1))).toNat = n + 1 := by
    omega
  rw [hk]
  have hk2 : (headingLine n t).length - (n + 1) < (headingLine n t).length := by
    omega
  dsimp only
  rw [getD_default_irrel _ _ hk2 ' ', getD_rev _ _ hlt, headingLine_reverse,
      headingLine_getD_mid]

theorem pySlice_headingLine (n : Nat) (t : List Char) :
    pySlice (headingLine n t) ((n : Int) + 1) (-((n : Int) + 1)) = t := by
  have hlen := headingLine_length n t
  have hb : pySliceIdx (headingLine n t).length (-((n : Int) + 1)) =
      n + 1 + t.length := by
    unfold pySliceIdx
    split
    · split <;> omega
    · omega
  have ha : pySliceIdx (headingLine n t).length ((n : Int) + 1) = n + 1 := by
    unfold pySliceIdx
    split
    · omega
    · omega
  unfold pySlice
  rw [hb, ha]
  have hsplit : headingLine n t =
      (List.replicate n '=' ++ ' ' :: t) ++ (' ' :: List.replicate n '=') := by
    simp [headingLine]
  rw [hsplit, List.take_left' (by simp; omega)]
  have hsplit2 : List.replicate n '=' ++ ' ' :: t =
      (List.replicate n '=' ++ [' ']) ++ t := by simp
  rw [hsplit2, List.drop_left' (by simp)]

theorem convertBlankLine_skip (R : Renderer) (s : ConvState) (line : Line) (i : Nat)
    (h : line.isEmpty = false) : convertBlankLine R s line i = .ok (s, [], some i) := by
  unfold convertBlankLine
  rw [if_pos (by simp [h])]

theorem convertParagraph_skip (R : Renderer) (s : ConvState) (line : Line) (i : Nat)
    (h : line.length ≠ 1 ∨ line.getD 0 ' ' ≠ '+') :
    convertParagraph R s line i = (s, [], some i) := by
  unfold convertParagraph
  rw [if_pos h]

/-- The heading classifier consumes every exactly-symmetric heading line
`'='*n ++ " " ++ t ++ " " ++ '='*n` (with `n ≥ 1`), flushing the pending
text and emitting `Heading(n, ...)` on the inline-processed text, then
dispatching on the NAME/SYNOPSIS/NOTES special cases. -/
theorem convertHeading_headingLine (R : Renderer) (s : ConvState) (rest : List Line)
    (n : Nat) (t : List Char) (hn : 1 ≤ n) :
    convertHeading R s (headingLine n t) rest 0 =
      (let ht := (attributes R t).1
       let s2 : ConvState := { s with buf := [], depth := 0 }
       let e2 := fillE R s.buf ++ [⟨.heading n ht, []⟩]
       if ht = "NAME".toList ∨ ht = "SYNOPSIS".toList then
         .ok (s2, e2 ++ (synLoop R ht false rest).1, (synLoop R ht false rest).2, none)
       else if truthy s2.notes ∧ ht = "NOTES".toList then
         .ok ({ s2 with buf := s2.notes.getD [], notes := none }, e2, rest, none)
       else .ok (s2, e2, rest, none)) := by
  unfold convertHeading
  have hscan : headScan (headingLine n t) (headingLine n t).length 0 = n :=
    headScan_headingLine n t hn _ 0 (by omega)
      (by rw [headingLine_length]; omega)
  rw [hscan, if_neg (by omega : ¬ n = 0), pyGetL_headingLine_mid,
      pyGetL_headingLine_midNeg]
  simp only [fill_eq]
  rw [pySlice_headingLine]
  try dsimp only
  rw [if_neg (by simp), if_neg (by simp)]

theorem convertLine_headingLine (R : Renderer) (s : ConvState) (rest : List Line)
    (n : Nat) (t : List Char) (hn : 1 ≤ n) :
    convertLine R s (headingLine n t) rest =
      (let ht := (attributes R t).1
       let s2 : ConvState := { s with buf := [], depth := 0 }
       let e2 := fillE R s.buf ++ [⟨.heading n ht, []⟩]
       if ht = "NAME".toList ∨ ht = "SYNOPSIS".toList then
         .ok (s2, e2 ++ (synLoop R ht false rest).1, (synLoop R ht false rest).2)
       else if truthy s2.notes ∧ ht = "NOTES".toList then
         .ok ({ s2 with buf := s2.notes.getD [], notes := none }, e2, rest)
       else .ok (s2, e2, rest)) := by
  have hne : (headingLine n t).isEmpty = false := by
    have hL := headingLine_length n t
    cases hc : headingLine n t with
    | nil =>
      rw [hc] at hL
      simp only [List.length_nil] at hL
      omega
    | cons a as => rfl
  have hlen1 : (headingLine n t).length ≠ 1 := by
    rw [headingLine_length]; omega
  unfold convertLine
  rw [convertBlankLine_skip R s _ 0 hne]
  try dsimp only
  rw [convertParagraph_skip R s _ 0 (Or.inl hlen1)]
  try dsimp only
  rw [convertHeading_headingLine R s rest n t hn]
  try dsimp only
  by_cases hA : (attributes R t).1 = "NAME".toList ∨ (attributes R t).1 = "SYNOPSIS".toList
  · rw [if_pos hA, if_pos hA]
    simp
  · rw [if_neg hA, if_neg hA]
    by_cases hB : truthy s.notes = true ∧ (attributes R t).1 = "NOTES".toList
    · rw [if_pos hB, if_pos hB]
      simp
    · rw [if_neg hB, if_neg hB]
      simp

/-- C1: heading detection requires exact symmetry.  (1) Every line
`'='*n ++ " " ++ t ++ " " ++ '='*n` (equal runs, single bounding spaces) is
consumed by the heading classifier: the pending text is flushed and
`Heading(n, t')` is emitted with `t'` the inline-processed text.  (2) The
line `=Foo=` (no bounding spaces) is not consumed by the heading
classifier and falls through to fallback text accumulation. -/
theorem heading_exact_symmetry :
    (∀ (R : Renderer) (s : ConvState) (rest : List Line) (n : Nat) (t : List Char),
       1 ≤ n →
       ∃ s' tail rest',
         convertLine R s (headingLine n t) rest =
           .ok (s', fillE R s.buf ++ ⟨.heading n (attributes R t).1, []⟩ :: tail,
                rest')) ∧
    (∀ (R : Renderer) (s : ConvState) (rest : List Line), s.depth = 0 →
       convertLine R s ("=Foo=".toList) rest =
         .ok ({ s with buf := s.buf ++ ' ' :: "=Foo=".toList }, [], rest)) := by
  constructor
  · intro R s rest n t hn
    rw [convertLine_headingLine R s rest n t hn]
    dsimp only
    by_cases hA : (attributes R t).1 = "NAME".toList ∨
        (attributes R t).1 = "SYNOPSIS".toList
    · rw [if_pos hA]
      refine ⟨{ s with buf := [], depth := 0 },
              (synLoop R (attributes R t).1 false rest).1,
              (synLoop R (attributes R t).1 false rest).2, ?_⟩
      simp
    · rw [if_neg hA]
      by_cases hB : truthy s.notes = true ∧ (attributes R t).1 = "NOTES".toList
      · rw [if_pos hB]
        exact ⟨_, [], _, rfl⟩
      · rw [if_neg hB]
        exact ⟨_, [], _, rfl⟩
  · intro R s rest h
    obtain ⟨b, no, ls, d, ex, nex, pa, npa⟩ := s
    simp only at h
    subst h
    rfl

/-- Witness for `heading_exact_symmetry` at `= Foo =` and `=Foo=`. -/
theorem heading_exact_symmetry_witness :
    (∃ s' tail rest',
       convertLine idR (initState none) (headingLine 1 ("Foo".toList)) [] =
         .ok (s', fillE idR (initState none).buf ++
              ⟨.heading 1 (attributes idR ("Foo".toList)).1, []⟩ :: tail, rest')) ∧
    convertLine idR (initState none) ("=Foo=".toList) [] =
      .ok ({ initState none with
              buf := (initState none).buf ++ ' ' :: "=Foo=".toList }, [], []) :=
  ⟨heading_exact_symmetry.1 idR (initState none) [] 1 ("Foo".toList) (by decide),
   heading_exact_symmetry.2 idR (initState none) [] rfl⟩

/-- C3: NOTES injection.  (a) If notes text is supplied and the run never
renders a `NOTES` heading, `_Finish` appends exactly one synthesized
`Heading(2, "NOTES")` followed by the notes body as fill text.  (b) If the
run does render a `NOTES` heading, the pending notes are cleared and the
finalize step emits no second NOTES heading.  (c) At a `NOTES` heading
line, the notes text is spliced into the pending buffer (becoming that
heading's body) and the pending notes are cleared. -/
theorem notes_injection :
    (∀ (R : Renderer) (v : List Char) (lines : List Line) (s : ConvState)
       (evs : List Emit), v ≠ [] →
       runAll R (some v) lines = .ok (s, evs) →
       evs.any isNotesHeading = false →
       run R (some v) lines =
         .ok (evs ++ (fillE R s.buf ++
              [⟨.line, []⟩, ⟨.heading 2 ("NOTES".toList), []⟩] ++
              fillE R v ++ [⟨.finish, []⟩]))) ∧
    (∀ (R : Renderer) (v : List Char) (lines : List Line) (s : ConvState)
       (evs : List Emit), v ≠ [] →
       runAll R (some v) lines = .ok (s, evs) →
       evs.any isNotesHeading = true →
       s.notes = none ∧
       run R (some v) lines = .ok (evs ++ (fillE R s.buf ++ [⟨.finish, []⟩]))) ∧
    (∀ (R : Renderer) (s : ConvState) (rest : List Line) (n : Nat) (t v : List Char),
       1 ≤ n → s.notes = some v → v ≠ [] →
       (attributes R t).1 = "NOTES".toList →
       convertLine R s (headingLine n t) rest =
         .ok ({ s with buf := v, notes := none, depth := 0 },
              fillE R s.buf ++ [⟨.heading n ("NOTES".toList), []⟩], rest)) := by
  refine ⟨?_, ?_, ?_⟩
  · intro R v lines s evs hv hrun hany
    have hpres : s.notes = some v :=
      (runLines_lineOK R lines.length _ lines _ _ hrun).1 hany
    unfold run runAll
    unfold runAll at hrun
    rw [hrun]
    dsimp only
    rw [finishConv_notes_some R s v hpres hv]
  · intro R v lines s evs hv hrun hany
    have htr : truthy (initState (some v)).notes = true := by
      simpa [initState, truthy] using hv
    have hnone : s.notes = none :=
      (runLines_lineOK R lines.length _ lines _ _ hrun).2.1 htr hany
    refine ⟨hnone, ?_⟩
    unfold run runAll
    unfold runAll at hrun
    rw [hrun]
    dsimp only
    rw [finishConv_notes_none R s hnone]
  · intro R s rest n t v hn hv hvne hNO
    rw [convertLine_headingLine R s rest n t hn]
    dsimp only
    rw [hNO, hv]
    rw [if_neg (by decide)]
    rw [if_pos ⟨by simpa [truthy] using hvne, rfl⟩]
    rfl

/-- Witness for `notes_injection` on the empty document with notes `hi`. -/
theorem notes_injection_witness :
    run idR (some ("hi".toList)) [] =
      .ok (([] : List Emit) ++ (fillE idR [] ++
           [⟨.line, []⟩, ⟨.heading 2 ("NOTES".toList), []⟩] ++
           fillE idR ("hi".toList) ++ [⟨.finish, []⟩])) :=
  notes_injection.1 idR ("hi".toList) [] (initState (some ("hi".toList))) []
    (by decide) rfl rfl

/-! ### The CSV table classifier -/

theorem tableLoop_closes (R : Renderer) (mids rest : List Line)
    (hmids : ∀ m ∈ mids, ("|====".toList).isPrefixOf (pyRstrip m) = false) :
    tableLoop R 1 (mids ++ ("|====".toList) :: rest) =
      (mids.map (fun m => ⟨.table (some (attributes R (pyRstrip m)).1), []⟩), rest) := by
  induction mids with
  | nil => rfl
  | cons m ms ih =>
    rw [List.cons_append, tableLoop]
    dsimp only
    rw [if_neg (by rw [hmids m (by simp)]; simp)]
    rw [ih (fun x hx => hmids x (by simp [hx]))]
    rfl

/-- C2: a CSV table header line followed by a `|====` delimiter, arbitrary
row lines (none starting with `|====`), and a closing `|====` delimiter
yields exactly one `Table(header)`, one `Table(row)` per row, and one
`Table(None)`; exactly the two `|====` lines are consumed as delimiters
(a countdown from 2), and the remaining input is untouched. -/
theorem csv_table_block (R : Renderer) (s : ConvState) (header : Line)
    (mids rest : List Line)
    (h0 : header.getD 0 ' ' = '[') (hne : header ≠ [])
    (hlast : header.getLast? = some ']')
    (hcsv : pyContains header ("format=\"csv\"".toList) = true)
    (hmids : ∀ m ∈ mids, ("|====".toList).isPrefixOf (pyRstrip m) = false) :
    convertLine R s header (("|====".toList) :: (mids ++ ("|====".toList) :: rest)) =
      .ok ({ s with buf := [] },
           ⟨.table (some header), s.buf⟩ ::
             (mids.map (fun m => ⟨.table (some (attributes R (pyRstrip m)).1), []⟩) ++
              [⟨.table none, []⟩]),
           rest) := by
  have hpos : 0 < header.length := List.length_pos.mpr hne
  have hEmpty : header.isEmpty = false := by
    cases header with
    | nil => exact absurd rfl hne
    | cons a as => rfl
  have hscan : ∀ fuel, headScan header fuel 0 = 0 :=
    headScan_stop header 0
      (by rintro ⟨-, hc, -⟩; rw [h0] at hc; exact absurd hc (by decide))
  have hg0 : pyGetL header 0 = .ok '[' := by
    unfold pyGetL pyResolve
    rw [if_pos le_rfl, if_pos (by exact_mod_cast hpos)]
    dsimp only
    rw [show ((0 : Int)).toNat = 0 from rfl, getD_default_irrel _ _ hpos ' ', h0]
  have hgl : pyGetL header (-1) = .ok ']' := by
    unfold pyGetL pyResolve
    rw [if_neg (by omega), if_pos (by omega)]
    dsimp only
    rw [show ((-(-1 : Int))).toNat = 1 from rfl]
    rw [List.getD_eq_getElem?_getD, ← List.getLast?_eq_getElem?, hlast]
    rfl
  have hloop1 : tableLoop R 2 (("|====".toList) :: (mids ++ ("|====".toList) :: rest)) =
      tableLoop R 1 (mids ++ ("|====".toList) :: rest) := by
    rw [tableLoop]
    dsimp only
    rw [if_pos (by decide), if_neg (by decide)]
    norm_num
  have htab : convertTable R s header
      (("|====".toList) :: (mids ++ ("|====".toList) :: rest)) 0 =
      .ok ({ s with buf := [] },
           ⟨.table (some header), s.buf⟩ ::
             (mids.map (fun m => ⟨.table (some (attributes R (pyRstrip m)).1), []⟩) ++
              [⟨.table none, []⟩]),
           rest, none) := by
    unfold convertTable
    rw [hg0]
    dsimp only
    rw [hgl]
    dsimp only
    rw [if_neg (by simp; exact hcsv)]
    rw [hloop1, tableLoop_closes R mids rest hmids]
  unfold convertLine
  rw [convertBlankLine_skip R s header 0 hEmpty]
  try dsimp only
  rw [convertParagraph_skip R s header 0 (Or.inr (by rw [h0]; decide))]
  try dsimp only
  rw [show convertHeading R s header
        (("|====".toList) :: (mids ++ ("|====".toList) :: rest)) 0 =
      .ok (s, [], ("|====".toList) :: (mids ++ ("|====".toList) :: rest), some 0) by
    unfold convertHeading
    rw [hscan]
    dsimp only
    rw [if_pos rfl]]
  try dsimp only
  rw [htab]
  try dsimp only
  rfl

/-- Witness for `csv_table_block` at the four-line input of the claim. -/
theorem csv_table_block_witness :
    convertLine idR (initState none) ("[format=\"csv\"]".toList)
        (("|====".toList) :: (["a,b".toList] ++ ("|====".toList) :: [])) =
      .ok ({ initState none with buf := [] },
           ⟨.table (some ("[format=\"csv\"]".toList)), (initState none).buf⟩ ::
             (["a,b".toList].map
                (fun m => ⟨.table (some (attributes idR (pyRstrip m)).1), []⟩) ++
              [⟨.table none, []⟩]),
           []) :=
  csv_table_block idR (initState none) ("[format=\"csv\"]".toList)
    ["a,b".toList] [] (by decide) (by decide) (by decide) (by decide)
    (by decide)

/-! ### The NAME/SYNOPSIS reader -/

theorem pySlice_drop2_isEmpty_false (b : List Char) (h : 2 < b.length) :
    (pySlice b 0 (-2)).isEmpty = false := by
  have hA : pySliceIdx b.length 0 = 0 := by
    unfold pySliceIdx
    split <;> omega
  have hB : pySliceIdx b.length (-2) = b.length - 2 := by
    unfold pySliceIdx
    split
    · split <;> omega
    · omega
  unfold pySlice
  rw [hA, hB, List.drop_zero, List.isEmpty_eq_false]
  intro hnil
  have hlen := congrArg List.length hnil
  rw [List.length_take] at hlen
  simp at hlen
  omega

/-- C7 (amended): after a NAME/SYNOPSIS heading the converter reads raw
lines itself, skipping blank lines: at end of input it emits nothing; at
the first line that is non-blank (after right-trimming and old-style `::`
trimming) it emits exactly one `Synopsis` and returns to the normal chain
(consuming two extra lines in the old-style SYNOPSIS case); it never emits
more than one `Synopsis` per heading. -/
theorem synopsis_reader :
    (∀ (R : Renderer) (ht : List Char) (o : Bool), synLoop R ht o [] = ([], [])) ∧
    (∀ (R : Renderer) (ht : List Char) (o : Bool) (blanks : List Line) (l : Line)
       (rs : List Line),
       (∀ b ∈ blanks, pyRstrip b = []) → pyRstrip l ≠ [] →
       synLoop R ht o (blanks ++ l :: rs) =
         (let b := pyRstrip l
          let trim : Bool := decide (2 < b.length) &&
            decide (b.getD (b.length - 1) ' ' = ':') &&
            decide (b.getD (b.length - 2) ' ' = ':')
          let b2 := if trim then pySlice b 0 (-2) else b
          ([⟨.synopsis (attributes R b2).1, []⟩],
           if (o || trim) = true ∧ ht = "SYNOPSIS".toList then rs.drop 2 else rs))) ∧
    (∀ (R : Renderer) (ht : List Char) (o : Bool) (ls : List Line),
       (synLoop R ht o ls).1.countP isSynopsisEv ≤ 1) := by
  refine ⟨fun R ht o => rfl, ?_, ?_⟩
  · intro R ht o blanks l rs hbl hl
    induction blanks generalizing o with
    | nil =>
      rw [List.nil_append, synLoop]
      dsimp only
      have hb2 : (if (decide (2 < (pyRstrip l).length) &&
            decide ((pyRstrip l).getD ((pyRstrip l).length - 1) ' ' = ':') &&
            decide ((pyRstrip l).getD ((pyRstrip l).length - 2) ' ' = ':')) = true
          then pySlice (pyRstrip l) 0 (-2) else pyRstrip l).isEmpty = false := by
        split
        · rename_i htr
          simp only [Bool.and_eq_true, decide_eq_true_eq] at htr
          exact pySlice_drop2_isEmpty_false (pyRstrip l) htr.1.1
        · simpa [List.isEmpty_iff] using hl
      rw [if_neg (show ¬_ = true by rw [hb2]; simp)]
    | cons b bs ih =>
      rw [List.cons_append, synLoop]
      dsimp only
      have hb : pyRstrip b = [] := hbl b (by simp)
      rw [hb]
      rw [if_pos (by decide)]
      rw [show (decide (2 < ([] : List Char).length) &&
            decide (([] : List Char).getD (([] : List Char).length - 1) ' ' = ':') &&
            decide (([] : List Char).getD (([] : List Char).length - 2) ' ' = ':')) =
          false from rfl]
      rw [Bool.or_false]
      exact ih o (fun x hx => hbl x (by simp [hx]))
  · intro R ht o ls
    induction ls generalizing o with
    | nil => simp [synLoop]
    | cons l rest ih =>
      rw [synLoop]
      try dsimp only
      repeat' split
      all_goals first
        | exact ih _
        | simp [isSynopsisEv]

/-- Witness for `synopsis_reader`: one blank line, then `foo`. -/
theorem synopsis_reader_witness :
    synLoop idR ("NAME".toList) false (["".toList] ++ ("foo".toList) :: []) =
      (let b := pyRstrip ("foo".toList)
       let trim : Bool := decide (2 < b.length) &&
         decide (b.getD (b.length - 1) ' ' = ':') &&
         decide (b.getD (b.length - 2) ' ' = ':')
       let b2 := if trim then pySlice b 0 (-2) else b
       ([⟨.synopsis (attributes idR b2).1, []⟩],
        if (false || trim) = true ∧ ("NAME".toList) = "SYNOPSIS".toList then
          ([] : List Line).drop 2
        else [])) :=
  synopsis_reader.2.1 idR ("NAME".toList) false ["".toList] ("foo".toList) []
    (by intro b hb; simp at hb; rw [hb]; rfl) (by decide)

/-! ### The style check of `RenderDocument` -/

theorem isPrefixOf_append_self (s b : List Char) : s.isPrefixOf (s ++ b) = true := by
  induction s with
  | nil => simp [List.isPrefixOf]
  | cons x t ih => simp [List.isPrefixOf, ih]

theorem findSub_self_append (s b : List Char) : (findSub (s ++ b) s).isSome := by
  have hp : s.isPrefixOf (s ++ b) = true := isPrefixOf_append_self s b
  cases hcase : s ++ b with
  | nil =>
    have hs : s = [] := (List.append_eq_nil.mp hcase).1
    subst hs
    simp [findSub]
  | cons x t =>
    rw [hcase] at hp
    unfold findSub
    simp [hp]

theorem pyContains_middle (a s b : List Char) :
    pyContains (a ++ (s ++ b)) s = true := by
  induction a with
  | nil =>
    simpa [pyContains] using findSub_self_append s b
  | cons x t ih =>
    rw [List.cons_append]
    unfold pyContains findSub
    split
    · rfl
    · simpa [pyContains] using ih

/-- C10 (counterexample): for the unsupported style `foo` the raised error
names only the requested style; it does not name the supported set (none
of `devsite`, `html`, `man`, `text` occurs in the message), refuting the
claim that the error names the supported set. -/
theorem unknown_style_msg_omits_supported_set :
    RenderDocument idR ("foo".toList) none [] =
      .error (unknownStyleMsg ("foo".toList)) ∧
    pyContains (unknownStyleMsg ("foo".toList)) ("devsite".toList) = false ∧
    pyContains (unknownStyleMsg ("foo".toList)) ("html".toList) = false ∧
    pyContains (unknownStyleMsg ("foo".toList)) ("man".toList) = false ∧
    pyContains (unknownStyleMsg ("foo".toList)) ("text".toList) = false := by
  refine ⟨rfl, ?_, ?_, ?_, ?_⟩ <;> decide

/-- C10 (amended): selecting an output style outside the supported set
`{devsite, html, man, markdown, text}` fails immediately with an error
naming the requested style (but not the supported set), without reading
any input (the result is the same for every input and notes value); for
every style in the supported set no such error is raised. -/
theorem style_check_behavior :
    (∀ (R : Renderer) (style : List Char) (notes : Option (List Char))
       (lines : List Line), STYLES.contains style = false →
       RenderDocument R style notes lines = .error (unknownStyleMsg style) ∧
       pyContains (unknownStyleMsg style) style = true) ∧
    (∀ (R : Renderer) (style : List Char) (notes : Option (List Char))
       (lines : List Line), STYLES.contains style = true →
       ∃ res, RenderDocument R style notes lines = .ok res) := by
  constructor
  · intro R style notes lines h
    constructor
    · unfold RenderDocument
      rw [if_neg (by rw [h]; exact Bool.false_ne_true)]
    · unfold unknownStyleMsg
      rw [List.append_assoc]
      have hmid := pyContains_middle ("Unknown markdown document style [".toList)
        style ("].".toList)
      simpa using hmid
  · intro R style notes lines h
    unfold RenderDocument
    rw [if_pos h]
    exact ⟨_, rfl⟩

/-- Witness for `style_check_behavior` at the styles `foo` and `text`. -/
theorem style_check_behavior_witness :
    (RenderDocument idR ("foo".toList) none [] =
       .error (unknownStyleMsg ("foo".toList)) ∧
     pyContains (unknownStyleMsg ("foo".toList)) ("foo".toList) = true) ∧
    ∃ res, RenderDocument idR ("text".toList) none [] = .ok res :=
  ⟨style_check_behavior.1 idR ("foo".toList) none [] (by decide),
   style_check_behavior.2 idR ("text".toList) none [] (by decide)⟩

/-- C4: a line consisting of a single `=` (any line that is entirely a run
of `=` characters behaves the same) drives the heading classifier's scan to
`i = len(line)`, and the unguarded check `self._line[i] != ' '` then raises
`IndexError`: `Run` is not total over its input, contradicting the claim
that no input line causes a fatal failure. -/
theorem run_crashes_on_equals_line (R : Renderer) (notes : Option (List Char)) :
    run R notes ["=".toList] = .error () := rfl

/-- C5: after `-- a`, `- b`, and a blank line the nesting depth is `-1`,
violating the claimed invariant `0 ≤ depth`; two further blank lines drive
`depth` to `-3`, below `-len(listStack)`, and the converter crashes with an
`IndexError`. -/
theorem depth_invariant_violated :
    (∃ p, runAll idR none ["-- a".toList, "- b".toList, "".toList] = .ok p ∧
          p.1.depth = -1) ∧
    runAll idR none
        ["-- a".toList, "- b".toList, "".toList, "".toList, "".toList] =
      .error () :=
  ⟨⟨_, rfl, rfl⟩, rfl⟩

/-- C8: bullet nesting is a strict stack discipline: `- a`, `-- b`, `- c`
produce `List(1)`, `List(2)`, then `List(1)` again (not `List(2)`) before
item `c`, for every renderer. -/
theorem bullet_nesting_stack (R : Renderer) :
    run R none ["- a".toList, "-- b".toList, "- c".toList] =
      .ok [⟨.list 1 none, []⟩,
           ⟨.fill (attributes R ("a".toList)).1, []⟩, ⟨.list 2 none, []⟩,
           ⟨.fill (attributes R ("b".toList)).1, []⟩, ⟨.list 1 none, []⟩,
           ⟨.fill (attributes R ("c".toList)).1, []⟩, ⟨.finish, []⟩] := rfl

/-- C9 (counterexample): a buffer holding two consecutive `*` characters is
copied to the output verbatim and no `Font` renderer call is made,
refuting the claim that a doubled emphasis character is converted to a
`Font` primitive. -/
theorem doubled_emphasis_no_font_call :
    attributes idR ("**".toList) = ("**".toList, []) := rfl

/-- C9 (amended): at every buffer position holding two consecutive
identical emphasis characters, the scanning loop of `_Attributes` copies
the pair to the output as two literal characters, advances past both, and
makes no `Font` (or other inline) renderer call for them. -/
theorem doubled_emphasis_literal (R : Renderer) (buf : List Char) (fuel i : Nat)
    (ret : List Char) (calls : List InlineCall) (c : Char)
    (hc : c = '*' ∨ c = '_' ∨ c = bq)
    (hi : i + 1 < buf.length)
    (h1 : buf.getD i ' ' = c) (h2 : buf.getD (i + 1) ' ' = c) :
    attrLoop R buf (fuel + 1) i ret calls =
      attrLoop R buf fuel (i + 2) (ret ++ [c, c]) calls := by
  have hlt : i < buf.length := by omega
  have hr : i < buf.length - 1 := by omega
  have hne : c ≠ ':' := by
    rcases hc with h | h | h <;> subst h <;> decide
  simp only [attrLoop, hlt, if_pos hlt, h1]
  rw [if_neg hne, if_pos hc, if_pos hr]
  rw [h2]
  simp

/-- Witness for `doubled_emphasis_literal` at the concrete buffer `**`. -/
theorem doubled_emphasis_literal_witness :
    attrLoop idR ("**".toList) 2 0 [] [] =
      attrLoop idR ("**".toList) 1 2 ['*', '*'] [] :=
  doubled_emphasis_literal idR ("**".toList) 1 0 [] [] '*' (Or.inl rfl)
    (by decide) (by decide) (by decide)

/-- C7 (counterexample): after a `NAME` heading with following lines
`foo`, `bar`, blank, the converter emits exactly one `Synopsis` call (for
`foo`) and none for `bar`, refuting the claim that every non-empty line up
to the next blank line is emitted as a synopsis. -/
theorem synopsis_stops_after_first_line :
    ∃ evs,
      run idR none ["= NAME =".toList, "foo".toList, "bar".toList, "".toList] =
        .ok evs ∧
      evs.countP isSynopsisEv = 1 ∧ (∀ e ∈ evs, e.ev ≠ .synopsis ("bar".toList)) :=
  ⟨_, rfl, by decide, by decide⟩

/-- C6 (counterexample): with pending text `hello` not yet flushed, a CSV
table header line is passed to the `Table` renderer primitive while the
pending buffer still holds ` hello` (which the table classifier then
silently discards), refuting the claim that pending text is always flushed
before a `Table` call. -/
theorem table_emitted_with_pending_text :
    ∃ evs,
      run idR none
          ["hello".toList, "[format=\"csv\"]".toList, "|====".toList, "|====".toList] =
        .ok evs ∧
      Emit.mk (.table (some ("[format=\"csv\"]".toList))) (" hello".toList) ∈ evs :=
  ⟨_, rfl, by decide⟩

end RenderDoc
